import Mathlib

/-!
Shallow embedding of the medicinereminder program (src/main.rs).

Modelling conventions:
* `chrono::NaiveTime` values are modelled as `Nat` minutes since midnight.
  All times the program constructs come from `NaiveTime::parse_from_str(_, "%H:%M")`,
  so they are whole minutes; the current wall-clock time is likewise a `Nat`
  and only its order relative to scheduled times matters to the program.
* `HashMap<String, Vec<Medication>>` is modelled as an association list
  `List (String × List Medication)`; `entry(..).or_insert_with(Vec::new).push(..)`
  appends to the value at the key, adding the key when absent.  Iteration order
  of the map is the list order.
* Methods taking `&mut self` are modelled as functions returning the new store
  (paired with their `Result`); methods taking `&self` return their output
  paired with the unchanged store, mirroring that a `&self` borrow cannot
  mutate.
* The CSV sink is modelled as the list of rows written, each row a list of
  field strings.  `csv::Writer::serialize` on a struct writes the header row
  `name,time,taken` lazily before the first record; with zero records nothing
  is written.  chrono's serde implementation for `NaiveTime` renders the time
  with its `Debug`/`Display` format `%H:%M:%S%.f`, i.e. `"08:00:00"` for a
  whole-minute time; serde/csv renders `bool` as `"true"`/`"false"`.
* `NaiveTime::parse_from_str(s, "%H:%M")` is modelled after chrono's parser:
  each numeric item consumes greedily one or two digits (chrono's
  `scan::number` with minimum width 1, so zero padding is *not* required),
  the `:` literal must match, the whole input must be consumed, and the
  parsed hour/minute must satisfy `hour < 24`, `minute < 60`.
-/

/-- One medication entry: `struct Medication { name, time, taken }` from src/main.rs. -/
structure Medication where
  name : String
  time : Nat
  taken : Bool
deriving Repr, DecidableEq

/-- The schedule store: `struct MedicationSchedule { medications: HashMap<String, Vec<Medication>> }`,
keyed by date strings `YYYY-MM-DD`. -/
structure MedicationSchedule where
  medications : List (String × List Medication)
deriving Repr, DecidableEq

/-- `MedicationSchedule::new()`: the empty schedule. -/
def MedicationSchedule.new : MedicationSchedule := ⟨[]⟩

/-- `HashMap::get` on the modelled map: first binding with the given key. -/
def lookupDate : List (String × List Medication) → String → Option (List Medication)
  | [], _ => none
  | (k, v) :: rest, d => if k = d then some v else lookupDate rest d

/-- `self.medications.entry(date).or_insert_with(Vec::new).push(medication)`:
append to the sequence at `date`, creating it when absent. -/
def insertAppend : List (String × List Medication) → String → Medication →
    List (String × List Medication)
  | [], d, m => [(d, [m])]
  | (k, v) :: rest, d, m =>
      if k = d then (k, v ++ [m]) :: rest else (k, v) :: insertAppend rest d m

/-- `fn add_medication(&mut self, date: String, medication: Medication)`. -/
def MedicationSchedule.add_medication (s : MedicationSchedule) (date : String)
    (m : Medication) : MedicationSchedule :=
  ⟨insertAppend s.medications date m⟩

/-- The sequence stored for a date, or the empty sequence:
`self.medications.get(&date).cloned().unwrap_or_else(Vec::new)`. -/
def entriesFor (s : MedicationSchedule) (date : String) : List Medication :=
  (lookupDate s.medications date).getD []

/-- `fn list_today(&self) -> Vec<Medication>`, with today's date supplied by the
clock source; `&self`, so the store is returned unchanged. -/
def MedicationSchedule.list_today (s : MedicationSchedule) (today : String) :
    List Medication × MedicationSchedule :=
  (entriesFor s today, s)

/-- `meds.get_mut(index)` followed by `med.taken = true`: set the `taken` flag of
the entry at the given position, leaving the rest of the list alone. -/
def setTakenAt : List Medication → Nat → List Medication
  | [], _ => []
  | m :: rest, 0 => { m with taken := true } :: rest
  | m :: rest, i + 1 => m :: setTakenAt rest i

/-- In-place mutation through `HashMap::get_mut`: replace the sequence stored at
an existing key. -/
def updateDate : List (String × List Medication) → String → List Medication →
    List (String × List Medication)
  | [], _, _ => []
  | (k, v) :: rest, d, nv =>
      if k = d then (k, nv) :: rest else (k, v) :: updateDate rest d nv

/-- `fn mark_taken(&mut self, date: &str, index: usize) -> Result<(), String>`:
the result paired with the (possibly updated) store.  Error strings are the
ones in the source. -/
def MedicationSchedule.mark_taken (s : MedicationSchedule) (date : String)
    (index : Nat) : Except String Unit × MedicationSchedule :=
  match lookupDate s.medications date with
  | some meds =>
      if index < meds.length then
        (Except.ok (), ⟨updateDate s.medications date (setTakenAt meds index)⟩)
      else
        (Except.error "Invalid medication index", s)
  | none => (Except.error "No medications found for the date", s)

/-- The three-way due-status classification the program realizes: `Taken` when
the flag is set (the listing labels such entries "Taken"), else `Missed`
exactly when `med.time < now` (the condition in `export_missed_doses`),
else `Pending`. -/
inductive DueStatus where
  | taken
  | missed
  | pending
deriving Repr, DecidableEq

/-- The due-status evaluator as a function of an entry and the current time. -/
def dueStatus (m : Medication) (t : Nat) : DueStatus :=
  if m.taken then DueStatus.taken
  else if m.time < t then DueStatus.missed
  else DueStatus.pending

/-- The literal collection condition of `export_missed_doses`:
`!med.taken && med.time < Local::now().time()`. -/
def isMissedAt (m : Medication) (t : Nat) : Bool :=
  !m.taken && decide (m.time < t)

/-- The nested collection loop of `export_missed_doses`: over all dates in map
iteration order, over the date's entries in sequence order, keep the entries
satisfying the missed condition. -/
def collectMissed : List (String × List Medication) → Nat → List Medication
  | [], _ => []
  | (_, meds) :: rest, t => meds.filter (fun m => isMissedAt m t) ++ collectMissed rest t

/-- Zero-pad a numeral to two digits, as chrono's time `Debug` format does. -/
def pad2 (n : Nat) : String :=
  if n < 10 then "0" ++ toString n else toString n

/-- chrono's serde rendering of a whole-minute `NaiveTime`: `%H:%M:%S%.f`,
e.g. `"08:00:00"`. -/
def renderTimeHMS (t : Nat) : String :=
  pad2 (t / 60) ++ ":" ++ pad2 (t % 60) ++ ":00"

/-- The header row `csv::Writer` derives from the `Medication` field names. -/
def csvHeader : List String := ["name", "time", "taken"]

/-- One CSV data record for a medication, in declared field order:
name, serde-rendered time, serde-rendered taken flag. -/
def serializeMedication (m : Medication) : List String :=
  [m.name, renderTimeHMS m.time, if m.taken then "true" else "false"]

/-- The rows written to the export file: nothing at all when no record is
serialized (the csv writer emits the header lazily), otherwise the header
followed by one record per collected missed entry, in collection order. -/
def exportSink (s : MedicationSchedule) (t : Nat) : List (List String) :=
  let missed := collectMissed s.medications t
  if missed.isEmpty then [] else csvHeader :: missed.map serializeMedication

/-- `fn export_missed_doses(&self, ..)`: the sink contents paired with the
unchanged store (`&self`). -/
def MedicationSchedule.export_missed_doses (s : MedicationSchedule) (t : Nat) :
    List (List String) × MedicationSchedule :=
  (exportSink s t, s)

/-- The reminder check in the session loop: the entries printed on a tick are
today's entries with `med.time <= current_time && !med.taken`, in order. -/
def remindersAt (meds : List Medication) (t : Nat) : List Medication :=
  meds.filter (fun m => decide (m.time ≤ t) && !m.taken)

/-- Handling one tick in the session loop: compute the reminder notices from
`schedule.list_today()`; the loop only reads the store on this path. -/
def tickStep (s : MedicationSchedule) (today : String) (t : Nat) :
    List Medication × MedicationSchedule :=
  (remindersAt (entriesFor s today) t, s)

/-- chrono's `scan::number` with minimum width 1 and maximum width 2: consume
greedily one or two leading digits, returning the value and the rest. -/
def takeDigits2 : List Char → Option (Nat × List Char)
  | [] => none
  | c :: rest =>
      if c.isDigit then
        match rest with
        | c2 :: rest2 =>
            if c2.isDigit then some ((c.toNat - 48) * 10 + (c2.toNat - 48), rest2)
            else some (c.toNat - 48, rest)
        | [] => some (c.toNat - 48, [])
      else none

/-- `NaiveTime::parse_from_str(input, "%H:%M")`, as minutes since midnight:
1-2 digit hour, literal `:`, 1-2 digit minute, whole input consumed,
hour below 24 and minute below 60. -/
def parseTimeHM (s : String) : Option Nat :=
  match takeDigits2 s.toList with
  | none => none
  | some (h, rest) =>
      match rest with
      | ':' :: rest2 =>
          match takeDigits2 rest2 with
          | none => none
          | some (mi, rest3) =>
              if rest3.isEmpty && h < 24 && mi < 60 then some (h * 60 + mi) else none
      | _ => none

/-- The `AddMedication` menu branch: parse the time input; on success append a
new untaken entry under today's date, on failure report and leave the store
alone. -/
def addMedCommand (s : MedicationSchedule) (today name timeInput : String) :
    MedicationSchedule :=
  match parseTimeHM timeInput with
  | some t => s.add_medication today ⟨name, t, false⟩
  | none => s

/-- States of the store reachable from the empty schedule by the program's
operations. -/
inductive Reachable : MedicationSchedule → Prop
  | init : Reachable MedicationSchedule.new
  | add (s : MedicationSchedule) (d : String) (m : Medication) :
      Reachable s → Reachable (s.add_medication d m)
  | mark (s : MedicationSchedule) (d : String) (i : Nat) :
      Reachable s → Reachable (s.mark_taken d i).2
  | list (s : MedicationSchedule) (d : String) :
      Reachable s → Reachable (s.list_today d).2
  | exportOp (s : MedicationSchedule) (t : Nat) :
      Reachable s → Reachable (s.export_missed_doses t).2

/-- A schedule holding one untaken Aspirin entry at 08:00 under one date,
used for concrete evaluations. -/
def aspirinSchedule : MedicationSchedule :=
  MedicationSchedule.new.add_medication "2024-01-01" ⟨"Aspirin", 480, false⟩

theorem lookupDate_insertAppend_self (es : List (String × List Medication))
    (d : String) (m : Medication) :
    lookupDate (insertAppend es d m) d = some ((lookupDate es d).getD [] ++ [m]) := by
  induction es with
  | nil => simp [insertAppend, lookupDate]
  | cons kv rest ih =>
      obtain ⟨k, v⟩ := kv
      by_cases h : k = d
      · subst h
        simp [insertAppend, lookupDate]
      · simp [insertAppend, lookupDate, h, ih]

theorem lookupDate_mem {es : List (String × List Medication)} {d : String}
    {v : List Medication} (h : lookupDate es d = some v) : (d, v) ∈ es := by
  induction es with
  | nil => simp [lookupDate] at h
  | cons kv rest ih =>
      obtain ⟨k, w⟩ := kv
      by_cases hk : k = d
      · subst hk
        simp [lookupDate] at h
        subst h
        exact List.mem_cons_self _ _
      · simp [lookupDate, hk] at h
        exact List.mem_cons_of_mem _ (ih h)

theorem lookupDate_updateDate_self {es : List (String × List Medication)}
    {d : String} {v : List Medication} (h : lookupDate es d = some v)
    (nv : List Medication) :
    lookupDate (updateDate es d nv) d = some nv := by
  induction es with
  | nil => simp [lookupDate] at h
  | cons kv rest ih =>
      obtain ⟨k, w⟩ := kv
      by_cases hk : k = d
      · subst hk
        simp [updateDate, lookupDate]
      · simp [lookupDate, hk] at h
        simp [updateDate, lookupDate, hk, ih h]

theorem lookupDate_updateDate_ne (es : List (String × List Medication))
    (d : String) (nv : List Medication) (d2 : String) (h : d2 ≠ d) :
    lookupDate (updateDate es d nv) d2 = lookupDate es d2 := by
  induction es with
  | nil => rfl
  | cons kv rest ih =>
      obtain ⟨k, w⟩ := kv
      by_cases hk : k = d
      · subst hk
        have hk2 : ¬ k = d2 := fun he => h (he.symm)
        simp [updateDate, lookupDate, hk2]
      · by_cases hk2 : k = d2
        · subst hk2
          simp [updateDate, lookupDate, hk]
        · simp [updateDate, lookupDate, hk, hk2, ih]

theorem mem_updateDate {es : List (String × List Medication)} {d : String}
    {nv : List Medication} {kv : String × List Medication}
    (h : kv ∈ updateDate es d nv) : kv.2 = nv ∨ kv ∈ es := by
  induction es with
  | nil => simp [updateDate] at h
  | cons kv0 rest ih =>
      obtain ⟨k, w⟩ := kv0
      by_cases hk : k = d
      · subst hk
        simp [updateDate] at h
        rcases h with h | h
        · subst h
          exact Or.inl rfl
        · exact Or.inr (List.mem_cons_of_mem _ h)
      · simp [updateDate, hk] at h
        rcases h with h | h
        · subst h
          exact Or.inr (List.mem_cons_self _ _)
        · rcases ih h with h2 | h2
          · exact Or.inl h2
          · exact Or.inr (List.mem_cons_of_mem _ h2)

theorem updateDate_updateDate (es : List (String × List Medication)) (d : String)
    (v1 v2 : List Medication) :
    updateDate (updateDate es d v1) d v2 = updateDate es d v2 := by
  induction es with
  | nil => rfl
  | cons kv rest ih =>
      obtain ⟨k, w⟩ := kv
      by_cases hk : k = d
      · subst hk
        simp [updateDate]
      · simp [updateDate, hk, ih]

theorem setTakenAt_length (l : List Medication) (i : Nat) :
    (setTakenAt l i).length = l.length := by
  induction l generalizing i with
  | nil => rfl
  | cons m rest ih =>
      cases i with
      | zero => rfl
      | succ j => simp [setTakenAt, ih]

theorem setTakenAt_get_self (l : List Medication) (i : Nat) :
    (setTakenAt l i).get? i = (l.get? i).map (fun m => { m with taken := true }) := by
  induction l generalizing i with
  | nil => simp [setTakenAt]
  | cons m rest ih =>
      cases i with
      | zero => rfl
      | succ j => simpa [setTakenAt] using ih j

theorem setTakenAt_get_ne (l : List Medication) (i j : Nat) (h : j ≠ i) :
    (setTakenAt l i).get? j = l.get? j := by
  induction l generalizing i j with
  | nil => simp [setTakenAt]
  | cons m rest ih =>
      cases i with
      | zero =>
          cases j with
          | zero => exact absurd rfl h
          | succ j2 => simp [setTakenAt]
      | succ i2 =>
          cases j with
          | zero => simp [setTakenAt]
          | succ j2 =>
              have h2 : j2 ≠ i2 := fun he => h (by rw [he])
              simpa [setTakenAt] using ih i2 j2 h2

theorem setTakenAt_idem (l : List Medication) (i : Nat) :
    setTakenAt (setTakenAt l i) i = setTakenAt l i := by
  induction l generalizing i with
  | nil => rfl
  | cons m rest ih =>
      cases i with
      | zero => rfl
      | succ j => simp [setTakenAt, ih]

theorem isMissedAt_iff_dueStatus (m : Medication) (t : Nat) :
    isMissedAt m t = true ↔ dueStatus m t = DueStatus.missed := by
  rcases m with ⟨n, ti, tk⟩
  cases tk <;> by_cases h2 : ti < t <;> simp [isMissedAt, dueStatus, h2]

theorem mem_collectMissed (es : List (String × List Medication)) (t : Nat)
    (m : Medication) :
    m ∈ collectMissed es t ↔
      (∃ kv, kv ∈ es ∧ m ∈ kv.2) ∧ isMissedAt m t = true := by
  induction es with
  | nil => simp [collectMissed]
  | cons kv rest ih =>
      obtain ⟨k, meds⟩ := kv
      simp only [collectMissed, List.mem_append, List.mem_filter, ih, List.mem_cons]
      constructor
      · rintro (⟨hm, hmiss⟩ | ⟨⟨kv2, hkv2, hm⟩, hmiss⟩)
        · exact ⟨⟨(k, meds), Or.inl rfl, hm⟩, hmiss⟩
        · exact ⟨⟨kv2, Or.inr hkv2, hm⟩, hmiss⟩
      · rintro ⟨⟨kv2, hkv2 | hkv2, hm⟩, hmiss⟩
        · subst hkv2
          exact Or.inl ⟨hm, hmiss⟩
        · exact Or.inr ⟨⟨kv2, hkv2, hm⟩, hmiss⟩

theorem insertAppend_values_ne_nil {es : List (String × List Medication)}
    {d : String} {m : Medication} (h : ∀ kv ∈ es, kv.2 ≠ []) :
    ∀ kv ∈ insertAppend es d m, kv.2 ≠ [] := by
  induction es with
  | nil =>
      intro kv hkv
      simp [insertAppend] at hkv
      subst hkv
      simp
  | cons kv0 rest ih =>
      obtain ⟨k, v⟩ := kv0
      intro kv hkv
      by_cases hk : k = d
      · subst hk
        simp [insertAppend] at hkv
        rcases hkv with hkv | hkv
        · subst hkv
          simp
        · exact h kv (List.mem_cons_of_mem _ hkv)
      · simp [insertAppend, hk] at hkv
        rcases hkv with hkv | hkv
        · subst hkv
          exact h (k, v) (List.mem_cons_self _ _)
        · exact ih (fun kv2 hkv2 => h kv2 (List.mem_cons_of_mem _ hkv2)) kv hkv

/-- C1: the due-status classification is Taken whenever the taken flag is set,
irrespective of the time; for untaken entries it is Missed iff
scheduled_time < t and Pending iff scheduled_time ≥ t, so an entry scheduled
exactly at t is Pending, not Missed. -/
theorem dueStatus_classification (m : Medication) (t : Nat) :
    (m.taken = true → dueStatus m t = DueStatus.taken)
    ∧ (m.taken = false → (dueStatus m t = DueStatus.missed ↔ m.time < t))
    ∧ (m.taken = false → (dueStatus m t = DueStatus.pending ↔ t ≤ m.time))
    ∧ (m.taken = false → m.time = t → dueStatus m t = DueStatus.pending) := by
  refine ⟨?_, ?_, ?_, ?_⟩
  · intro h
    simp [dueStatus, h]
  · intro h
    by_cases h2 : m.time < t <;> simp [dueStatus, h, h2]
  · intro h
    by_cases h2 : m.time < t <;> simp [dueStatus, h, h2]
    all_goals omega
  · intro h he
    have h2 : ¬ m.time < t := by omega
    simp [dueStatus, h, h2]

/-- Witness for C1 at the boundary time: an untaken entry scheduled exactly at
the current time is Pending. -/
theorem dueStatus_classification_witness :
    dueStatus ⟨"Aspirin", 480, false⟩ 480 = DueStatus.pending :=
  (dueStatus_classification ⟨"Aspirin", 480, false⟩ 480).2.2.2 rfl rfl

/-- C2: mark_taken sets the taken flag of the indexed entry when the date has a
sequence and the index is in bounds, leaving every other entry and every other
date unchanged; it fails with the not-found error when the date has no
sequence and with the invalid-index error when the index is out of bounds, and
on either failure the store is returned unchanged. -/
theorem mark_taken_correct (s : MedicationSchedule) (d : String) (i : Nat) :
    (lookupDate s.medications d = none →
        s.mark_taken d i = (Except.error "No medications found for the date", s))
    ∧ (∀ meds, lookupDate s.medications d = some meds → meds.length ≤ i →
        s.mark_taken d i = (Except.error "Invalid medication index", s))
    ∧ (∀ meds, lookupDate s.medications d = some meds → i < meds.length →
        (s.mark_taken d i).1 = Except.ok ()
        ∧ lookupDate (s.mark_taken d i).2.medications d = some (setTakenAt meds i)
        ∧ (setTakenAt meds i).get? i =
            (meds.get? i).map (fun m => { m with taken := true })
        ∧ (∀ j, j ≠ i → (setTakenAt meds i).get? j = meds.get? j)
        ∧ (∀ d2, d2 ≠ d →
            lookupDate (s.mark_taken d i).2.medications d2 =
              lookupDate s.medications d2)) := by
  refine ⟨?_, ?_, ?_⟩
  · intro h
    simp [MedicationSchedule.mark_taken, h]
  · intro meds h hle
    have h2 : ¬ i < meds.length := by omega
    simp [MedicationSchedule.mark_taken, h, h2]
  · intro meds h hlt
    refine ⟨?_, ?_, setTakenAt_get_self meds i,
      fun j hj => setTakenAt_get_ne meds i j hj, ?_⟩
    · simp [MedicationSchedule.mark_taken, h, hlt]
    · simp only [MedicationSchedule.mark_taken, h, hlt, if_true]
      exact lookupDate_updateDate_self h (setTakenAt meds i)
    · intro d2 hd2
      simp only [MedicationSchedule.mark_taken, h, hlt, if_true]
      exact lookupDate_updateDate_ne s.medications d (setTakenAt meds i) d2 hd2

/-- Witness for C2: marking the only entry of a one-entry date succeeds. -/
theorem mark_taken_correct_witness :
    (aspirinSchedule.mark_taken "2024-01-01" 0).1 = Except.ok () := by
  have h := (mark_taken_correct aspirinSchedule "2024-01-01" 0).2.2
      [⟨"Aspirin", 480, false⟩] rfl (by decide)
  exact h.1

/-- C3: add always succeeds and appends: afterwards the date's sequence equals
the old sequence (empty when the key was absent) with the new entry appended,
so its last element is the added entry and the prior elements are unchanged
and in their original order. -/
theorem add_medication_appends (s : MedicationSchedule) (d : String)
    (m : Medication) :
    entriesFor (s.add_medication d m) d = entriesFor s d ++ [m]
    ∧ (entriesFor (s.add_medication d m) d).getLast? = some m := by
  have h : entriesFor (s.add_medication d m) d = entriesFor s d ++ [m] := by
    simp [entriesFor, MedicationSchedule.add_medication, lookupDate_insertAppend_self]
  refine ⟨h, ?_⟩
  rw [h]
  simp

/-- C7 (amended): on a tick the session loop emits a reminder exactly for each
of today's entries that is not taken and has scheduled_time ≤ the tick's time —
this includes entries already Missed, not only Due-Pending ones — and the
reminder path returns the store unchanged. -/
theorem tick_reminders (s : MedicationSchedule) (today : String) (t : Nat) :
    (tickStep s today t).2 = s
    ∧ ∀ m, m ∈ (tickStep s today t).1 ↔
        m ∈ entriesFor s today ∧ m.time ≤ t ∧ m.taken = false := by
  refine ⟨rfl, fun m => ?_⟩
  simp [tickStep, remindersAt, List.mem_filter, and_assoc]

/-- C7 counterexample: at tick time 08:00 an untaken entry scheduled 07:00 is
classified Missed (not Due-Pending), yet the tick path emits a reminder
for it. -/
theorem tick_reminder_for_missed_entry :
    (tickStep (MedicationSchedule.new.add_medication "2024-01-01"
        ⟨"EarlyMed", 420, false⟩) "2024-01-01" 480).1 = [⟨"EarlyMed", 420, false⟩]
    ∧ dueStatus ⟨"EarlyMed", 420, false⟩ 480 = DueStatus.missed := by
  exact ⟨rfl, rfl⟩

/-- C9: the store is mutated only by add and mark-taken: listing today's
entries and exporting missed doses both return the store unchanged, and the
schedule starts empty at process start. -/
theorem store_mutation_frame (s : MedicationSchedule) (today : String) (t : Nat) :
    (s.list_today today).2 = s
    ∧ (s.export_missed_doses t).2 = s
    ∧ MedicationSchedule.new.medications = [] :=
  ⟨rfl, rfl, rfl⟩

/-- C10: mark_taken is idempotent: whenever it succeeds, repeating it on the
resulting store succeeds again and leaves the store equal to the state after
the first call. -/
theorem mark_taken_idempotent (s : MedicationSchedule) (d : String) (i : Nat)
    (h : (s.mark_taken d i).1 = Except.ok ()) :
    ((s.mark_taken d i).2.mark_taken d i).1 = Except.ok ()
    ∧ ((s.mark_taken d i).2.mark_taken d i).2 = (s.mark_taken d i).2 := by
  rcases hl : lookupDate s.medications d with _ | meds
  · simp [MedicationSchedule.mark_taken, hl] at h
  · by_cases hlt : i < meds.length
    · have h1 : s.mark_taken d i =
          (Except.ok (), ⟨updateDate s.medications d (setTakenAt meds i)⟩) := by
        simp [MedicationSchedule.mark_taken, hl, hlt]
      rw [h1]
      have hl2 : lookupDate (updateDate s.medications d (setTakenAt meds i)) d
          = some (setTakenAt meds i) := lookupDate_updateDate_self hl _
      have hlt2 : i < (setTakenAt meds i).length := by
        rw [setTakenAt_length]
        exact hlt
      constructor
      · simp [MedicationSchedule.mark_taken, hl2, hlt2]
      · simp [MedicationSchedule.mark_taken, hl2, hlt2, setTakenAt_idem,
          updateDate_updateDate]
    · simp [MedicationSchedule.mark_taken, hl, hlt] at h

/-- Witness for C10 on a concrete one-entry schedule. -/
theorem mark_taken_idempotent_witness :
    ((aspirinSchedule.mark_taken "2024-01-01" 0).2.mark_taken "2024-01-01" 0).1
      = Except.ok () := by
  have h := mark_taken_idempotent aspirinSchedule "2024-01-01" 0 rfl
  exact h.1

theorem mark_taken_medications_cases (s : MedicationSchedule) (d : String)
    (i : Nat) :
    (s.mark_taken d i).2 = s
    ∨ ∃ meds, lookupDate s.medications d = some meds ∧ i < meds.length ∧
        (s.mark_taken d i).2.medications =
          updateDate s.medications d (setTakenAt meds i) := by
  rcases hl : lookupDate s.medications d with _ | meds
  · left
    simp [MedicationSchedule.mark_taken, hl]
  · by_cases hlt : i < meds.length
    · right
      refine ⟨meds, rfl, hlt, ?_⟩
      simp [MedicationSchedule.mark_taken, hl, hlt]
    · left
      simp [MedicationSchedule.mark_taken, hl, hlt]

/-- C8: in every store reachable from the empty schedule via the program's
operations (add, mark-taken, list, export), each date key present in the
mapping maps to a non-empty sequence of entries. -/
theorem reachable_dates_nonempty (s : MedicationSchedule) (h : Reachable s) :
    ∀ kv ∈ s.medications, kv.2 ≠ [] := by
  induction h with
  | init =>
      intro kv hkv
      simp [MedicationSchedule.new] at hkv
  | add s d m _ ih => exact insertAppend_values_ne_nil ih
  | mark s d i _ ih =>
      rcases mark_taken_medications_cases s d i with h2 | ⟨meds, hl, _, h2⟩
      · rw [h2]
        exact ih
      · intro kv hkv
        rw [h2] at hkv
        rcases mem_updateDate hkv with h3 | h3
        · rw [h3]
          have hm : meds ≠ [] := ih (d, meds) (lookupDate_mem hl)
          intro hc
          apply hm
          apply List.eq_nil_of_length_eq_zero
          have hlen := setTakenAt_length meds i
          rw [hc] at hlen
          exact hlen.symm
        · exact ih kv h3
  | list s d _ ih => exact ih
  | exportOp s t _ ih => exact ih

/-- Witness for C8: the schedule reached by one add maps its only key to a
non-empty sequence. -/
theorem reachable_dates_nonempty_witness :
    ([⟨"Aspirin", 480, false⟩] : List Medication) ≠ [] :=
  reachable_dates_nonempty aspirinSchedule
    (Reachable.add MedicationSchedule.new "2024-01-01" ⟨"Aspirin", 480, false⟩
      Reachable.init)
    ("2024-01-01", [⟨"Aspirin", 480, false⟩]) (by decide)

/-- C4: export collects exactly the entries, across all dates of the store,
classified Missed by the evaluator at the current time; the sink lists exactly
those records in collection order after the header; and with zero Missed
entries the sink holds no rows at all, in particular zero data records. -/
theorem export_missed_collects (s : MedicationSchedule) (t : Nat) :
    (∀ m, m ∈ collectMissed s.medications t ↔
        (∃ kv, kv ∈ s.medications ∧ m ∈ kv.2) ∧ dueStatus m t = DueStatus.missed)
    ∧ (collectMissed s.medications t ≠ [] →
        exportSink s t =
          csvHeader :: (collectMissed s.medications t).map serializeMedication)
    ∧ (collectMissed s.medications t = [] → exportSink s t = []) := by
  refine ⟨fun m => ?_, ?_, ?_⟩
  · rw [mem_collectMissed, isMissedAt_iff_dueStatus]
  · intro h
    have hie : (collectMissed s.medications t).isEmpty = false := by
      rcases hc : collectMissed s.medications t with _ | ⟨a, l⟩
      · exact absurd hc h
      · rfl
    simp [exportSink, hie]
  · intro h
    simp [exportSink, h]

/-- Witness for C4 on a schedule with one missed entry, exported at 08:01. -/
theorem export_missed_collects_witness :
    exportSink aspirinSchedule 481 =
      csvHeader ::
        (collectMissed aspirinSchedule.medications 481).map serializeMedication :=
  (export_missed_collects aspirinSchedule 481).2.1 (by decide)

/-- C5 counterexample: the exported record for the 08:00 Aspirin entry renders
the scheduled time as "08:00:00" (chrono's HH:MM:SS serde form), which is not
the HH:MM form "08:00" the claim states. -/
theorem export_time_not_hhmm :
    exportSink aspirinSchedule 481 =
      [["name", "time", "taken"], ["Aspirin", "08:00:00", "false"]]
    ∧ "08:00:00" ≠ "08:00" :=
  ⟨rfl, by decide⟩

/-- C5 (amended): every data record written by the export has the fields
{name, scheduled_time, taken} in that fixed order, with scheduled_time
rendered in HH:MM:SS form (chrono's serde rendering of the time) and the
taken field rendered "false". -/
theorem export_record_fields (s : MedicationSchedule) (t : Nat) (m : Medication)
    (h : m ∈ collectMissed s.medications t) :
    serializeMedication m = [m.name, renderTimeHMS m.time, "false"]
    ∧ m.taken = false := by
  have h2 : isMissedAt m t = true := ((mem_collectMissed s.medications t m).1 h).2
  have h3 : m.taken = false := by
    cases hb : m.taken
    · rfl
    · simp [isMissedAt, hb] at h2
  exact ⟨by simp [serializeMedication, h3], h3⟩

/-- Witness for C5 (amended) on the concrete missed Aspirin entry. -/
theorem export_record_fields_witness :
    serializeMedication ⟨"Aspirin", 480, false⟩ =
      ["Aspirin", renderTimeHMS 480, "false"] := by
  have h := export_record_fields aspirinSchedule 481 ⟨"Aspirin", 480, false⟩
    (by decide)
  exact h.1

/-- C6 counterexample: chrono's %H:%M parsing does not require zero padding, so
the non-zero-padded "8:00" parses successfully (to 08:00 = 480 minutes)
instead of failing as the claim states. -/
theorem parse_nonpadded_succeeds : parseTimeHM "8:00" = some 480 := rfl

/-- C6 (amended): the AddMedication time parser accepts 24-hour HH:MM times
with 1-2 digit fields: "08:00" and the non-zero-padded "8:00" both parse to
08:00, the out-of-range "25:61" fails, and on any parse failure the store is
not mutated and no entry is added. -/
theorem parse_time_behavior :
    parseTimeHM "08:00" = some 480
    ∧ parseTimeHM "8:00" = some 480
    ∧ parseTimeHM "25:61" = none
    ∧ ∀ (s : MedicationSchedule) (today name inp : String),
        parseTimeHM inp = none → addMedCommand s today name inp = s := by
  refine ⟨rfl, rfl, rfl, ?_⟩
  intro s today name inp h
  simp [addMedCommand, h]

/-- Witness for C6 (amended): the failing input "25:61" leaves the empty store
unchanged. -/
theorem parse_time_behavior_witness :
    addMedCommand MedicationSchedule.new "2024-01-01" "Aspirin" "25:61"
      = MedicationSchedule.new :=
  parse_time_behavior.2.2.2 MedicationSchedule.new "2024-01-01" "Aspirin" "25:61" rfl
